import Mathlib

/-!
# Cart logic of `script.js` (pizza menu)

A shallow embedding of the cart state management of `src/script.js` and the
properties its specification states about it.

Modelling conventions.

* A JS number is a `JSNum`: `NaN`, the two infinities, or a finite value held
  as the rational it denotes.  Sums and products are rounded to binary64 as
  JS does (`round64`: nearest value, ties to the even significand, overflow
  to an infinity).  The sign of zero is left out.  A `fin q` whose `q` is not
  a binary64 value stands for no JS number: statements over every `JSNum`
  cover more than JS has.
* The objects the program itself puts in the cart (line 90,
  `{ name, price: Number(price), qty: 1 }`) are `LineItem` records.  The cart
  operations are embedded over lists of such records; object identity is
  replaced by position in the list (no object is ever shared between two
  slots of the cart).
* Names are strings and the `price` handed to `addToCart` is a JS number,
  which is what the click handler passes (`Number(card.dataset.price)`,
  line 129); `Number` applied to it returns it.
* `cart[index]`, `changeQty` and `removeItem` take the index as a JS number,
  which is what the click handler passes (`Number(...)`, line 137).
* `JSON.stringify` / `JSON.parse` work on the syntax tree of the JSON text
  (`Json`), number literals held by the value they are read as; a string held
  by `localStorage` is represented by how `JSON.parse` reads it
  (`StoredText`).
* DOM effects that do not feed back into the cart (toasts, the bump
  animation, the list markup) are left out; what `updateCartUI` writes to
  the page and to the store is returned as a `CartView`.
-/

namespace PizzaMenu

/-! ## Numbers -/

/-- A JS number. -/
inductive JSNum where
  | nan
  | posInf
  | negInf
  | fin (q : ℚ)
  deriving DecidableEq

namespace JSNum

/-- Sign of a finite value as seen by a product with an infinity:
`none` for zero, else whether it is negative. -/
def signOf (q : ℚ) : Option Bool :=
  if q = 0 then none else some (decide (q < 0))

/-- An infinity of the given sign (`true` is negative). -/
def inf (neg : Bool) : JSNum := if neg then negInf else posInf

/-- The JS `<=` on numbers: false as soon as one side is `NaN`. -/
def le : JSNum → JSNum → Bool
  | nan, _ => false
  | _, nan => false
  | negInf, _ => true
  | _, posInf => true
  | posInf, _ => false
  | _, negInf => false
  | fin a, fin b => decide (a ≤ b)

/-- Whether the number is finite (`Number.isFinite`). -/
def isFinite : JSNum → Bool
  | fin _ => true
  | _ => false

end JSNum

/-- The integer nearest to `x`, the even one on a tie. -/
def roundHalfEven (x : ℚ) : ℤ :=
  let f := ⌊x⌋
  if x - f < 1 / 2 then f
  else if 1 / 2 < x - f then f + 1
  else if f % 2 = 0 then f else f + 1

/-- The binary64 value of a real result (IEEE 754 round to nearest, ties to
even): the result is rounded to a multiple of the unit in the last place of
its binade, `2 ^ (e - 52)` for `2 ^ e <= |q| < 2 ^ (e + 1)`, with `e` no less
than `-1022` (subnormal range); a magnitude that reaches `2 ^ 1024` becomes an
infinity. -/
def round64 (q : ℚ) : JSNum :=
  if q = 0 then .fin 0
  else
    let u : ℚ := 2 ^ (max (Int.log 2 (abs q)) (-1022) - 52)
    let r : ℚ := (roundHalfEven (q / u) : ℚ) * u
    if 2 ^ 1024 ≤ abs r then JSNum.inf (decide (q < 0)) else .fin r

/-- The JS `+` on numbers. -/
def JSNum.add : JSNum → JSNum → JSNum
  | .nan, _ => .nan
  | _, .nan => .nan
  | .posInf, .negInf => .nan
  | .negInf, .posInf => .nan
  | .posInf, _ => .posInf
  | _, .posInf => .posInf
  | .negInf, _ => .negInf
  | _, .negInf => .negInf
  | .fin a, .fin b => round64 (a + b)

/-- The JS `*` on numbers. -/
def JSNum.mul : JSNum → JSNum → JSNum
  | .nan, _ => .nan
  | _, .nan => .nan
  | .posInf, .posInf => .posInf
  | .posInf, .negInf => .negInf
  | .negInf, .posInf => .negInf
  | .negInf, .negInf => .posInf
  | .posInf, .fin b => match JSNum.signOf b with
    | none => .nan
    | some s => JSNum.inf s
  | .negInf, .fin b => match JSNum.signOf b with
    | none => .nan
    | some s => JSNum.inf (!s)
  | .fin a, .posInf => match JSNum.signOf a with
    | none => .nan
    | some s => JSNum.inf s
  | .fin a, .negInf => match JSNum.signOf a with
    | none => .nan
    | some s => JSNum.inf (!s)
  | .fin a, .fin b => round64 (a * b)

/-! ## Line items and the cart -/

/-- An object of the cart, as built on line 90. -/
structure LineItem where
  name : String
  price : JSNum
  qty : JSNum
  deriving DecidableEq

/-- The module-level `cart` while it holds line items. -/
abbrev Cart := List LineItem

/-- The call `Number(value)` on a number returns it. -/
def Number (value : JSNum) : JSNum := value

/-- The call `cart.find(p)`: the first element satisfying `p`, with its
position (the position stands for the reference the JS code gets). -/
def find (p : LineItem → Bool) : Cart → Option (Nat × LineItem)
  | [] => none
  | i :: rest =>
    if p i then some (0, i)
    else match find p rest with
      | some (k, e) => some (k + 1, e)
      | none => none

/-- The array index a number denotes as a property key of an array: only a
non-negative integer is one. -/
def arrayIndex : JSNum → Option Nat
  | .fin q => if q.den = 1 ∧ 0 ≤ q.num then some q.num.toNat else none
  | _ => none

/-- The access `cart[index]`: the element and its position, or `none` for
`undefined`. -/
def elemAt (cart : Cart) (index : JSNum) : Option (Nat × LineItem) :=
  match arrayIndex index with
  | none => none
  | some k => match cart[k]? with
    | none => none
    | some item => some (k, item)

/-- The function `addToCart(name, price)`, lines 84-94: the cart afterwards. -/
def addToCart (cart : Cart) (name : String) (price : JSNum) : Cart :=
  match find (fun i => i.name == name) cart with
  | some (k, existing) =>
    cart.set k { existing with qty := existing.qty.add (.fin 1) }
  | none =>
    cart ++ [{ name := name, price := Number price, qty := .fin 1 }]

/-- The function `changeQty(index, delta)`, lines 96-107: the cart afterwards. -/
def changeQty (cart : Cart) (index : JSNum) (delta : JSNum) : Cart :=
  match elemAt cart index with
  | none => cart
  | some (k, item) =>
    let item1 : LineItem := { item with qty := item.qty.add delta }
    let cart1 := cart.set k item1
    if item1.qty.le (.fin 0) then cart1.eraseIdx k else cart1

/-- The function `removeItem(index)`, lines 109-115: the cart afterwards. -/
def removeItem (cart : Cart) (index : JSNum) : Cart :=
  match elemAt cart index with
  | none => cart
  | some (k, _) => cart.eraseIdx k

/-- The function `clearCart()`, lines 117-121: the cart afterwards. -/
def clearCart (_cart : Cart) : Cart := []

/-! ## What the page shows -/

/-- The digits of `n`, with at least one digit before the last `f` and a
point before them: step 10 of `Number.prototype.toFixed`. -/
def fixedDigits (n f : Nat) : List Char :=
  let m := Nat.toDigits 10 n
  let m := if m.length ≤ f then List.replicate (f + 1 - m.length) '0' ++ m else m
  if f = 0 then m else m.take (m.length - f) ++ '.' :: m.drop (m.length - f)

/-- The integer nearest to `|q| * 10 ^ f`, the larger one on a tie. -/
def nearestScaled (q : ℚ) (f : Nat) : Nat :=
  (2 * q.num.natAbs * 10 ^ f + q.den) / (2 * q.den)

/-- The call `x.toFixed(f)`.  It is `none` where the builtin leaves fixed
notation (magnitude at least `10 ^ 21`): the exponent notation it then prints
depends on the binary64 digits and is outside the model. -/
def toFixed (x : JSNum) (f : Nat) : Option String :=
  match x with
  | .nan => some "NaN"
  | .posInf => some "Infinity"
  | .negInf => some "-Infinity"
  | .fin q =>
    if 10 ^ 21 * q.den ≤ q.num.natAbs then none
    else
      some (String.mk ((if q < 0 then ['-'] else []) ++ fixedDigits (nearestScaled q f) f))

/-- The function `formatPrice(value)`, lines 17-19. -/
def formatPrice (value : JSNum) : Option String :=
  toFixed (Number value) 2

/-- The `total` accumulated by the `forEach` of `updateCartUI`, lines 55-58. -/
def cartTotal (cart : Cart) : JSNum :=
  cart.foldl (fun total item => total.add (item.price.mul item.qty)) (.fin 0)

/-- The `count` reduced on line 75. -/
def cartCount (cart : Cart) : JSNum :=
  cart.foldl (fun sum i => sum.add i.qty) (.fin 0)

/-! ## JSON and the store -/

/-- A JS value of the kinds `JSON.parse` can return, plus `undefined`. -/
inductive JSVal where
  | undefined
  | null
  | bool (b : Bool)
  | num (n : JSNum)
  | str (s : String)
  | arr (elems : List JSVal)
  | obj (props : List (String × JSVal))

/-- A JSON text, by its syntax tree.  A number literal is held by the binary64
value `JSON.parse` reads it as, which is also the value whose literal
`JSON.stringify` writes. -/
inductive Json where
  | null
  | bool (b : Bool)
  | num (q : ℚ)
  | str (s : String)
  | arr (elems : List Json)
  | obj (members : List (String × Json))

/-- A string held by `localStorage`, represented by how `JSON.parse` reads
it: either it is not a JSON text, or it is the text of a syntax tree. -/
inductive StoredText where
  | notJson
  | json (t : Json)

/-- The entry of `localStorage` under the key `pizza_cart`; `none` when there
is no such entry (`getItem` then returns `null`). -/
abbrev Storage := Option StoredText

/-- The array index a property key denotes, if it is one: a canonical decimal
numeral below `2 ^ 32 - 1`. -/
def keyIndex (key : String) : Option Nat :=
  let cs := key.data
  if cs ≠ [] ∧ cs.all Char.isDigit = true ∧ (cs.length = 1 ∨ cs.head? ≠ some '0') then
    let n := cs.foldl (fun acc c => 10 * acc + (c.toNat - 48)) 0
    if n < 4294967295 then some n else none
  else none

/-- Where a new property `key` goes among the own properties: integer keys
come first in ascending order, the other keys after them in creation order. -/
def insertProp (key : String) (v : JSVal) : List (String × JSVal) → List (String × JSVal)
  | [] => [(key, v)]
  | (k, w) :: rest =>
    match keyIndex key, keyIndex k with
    | some n, some m =>
      if n < m then (key, v) :: (k, w) :: rest else (k, w) :: insertProp key v rest
    | some _, none => (key, v) :: (k, w) :: rest
    | none, _ => (k, w) :: insertProp key v rest

/-- The operation `CreateDataProperty`: an existing property keeps its place
and takes the new value, a new one is inserted. -/
def defineProp (props : List (String × JSVal)) (key : String) (v : JSVal) :
    List (String × JSVal) :=
  if props.any (fun p => p.1 == key) then
    props.map (fun p => if p.1 == key then (p.1, v) else p)
  else insertProp key v props

mutual
/-- The value `JSON.parse` builds from a JSON text. -/
def Json.toJS : Json → JSVal
  | .null => .null
  | .bool b => .bool b
  | .num q => .num (.fin q)
  | .str s => .str s
  | .arr elems => .arr (Json.toJSElems elems)
  | .obj members => .obj (Json.toJSMembers members [])
/-- The elements of a parsed array. -/
def Json.toJSElems : List Json → List JSVal
  | [] => []
  | j :: rest => j.toJS :: Json.toJSElems rest
/-- The properties of a parsed object, members defined one after another. -/
def Json.toJSMembers : List (String × Json) → List (String × JSVal) → List (String × JSVal)
  | [], acc => acc
  | (k, j) :: rest, acc => Json.toJSMembers rest (defineProp acc k j.toJS)
end

mutual
/-- The operation `SerializeJSONProperty`: the JSON text of a value, `none`
for `undefined`. -/
def JSVal.toJson : JSVal → Option Json
  | .undefined => none
  | .null => some .null
  | .bool b => some (.bool b)
  | .num (.fin q) => some (.num q)
  | .num _ => some .null
  | .str s => some (.str s)
  | .arr elems => some (.arr (JSVal.toJsonElems elems))
  | .obj props => some (.obj (JSVal.toJsonProps props))
/-- Array elements: `undefined` is written as `null`. -/
def JSVal.toJsonElems : List JSVal → List Json
  | [] => []
  | v :: rest =>
    (match v.toJson with
      | some j => j
      | none => .null) :: JSVal.toJsonElems rest
/-- Object properties: an `undefined` one is left out. -/
def JSVal.toJsonProps : List (String × JSVal) → List (String × Json)
  | [] => []
  | (k, v) :: rest =>
    match v.toJson with
    | some j => (k, j) :: JSVal.toJsonProps rest
    | none => JSVal.toJsonProps rest
end

namespace JSON

/-- The call `JSON.stringify(value)`: the text written, `none` for `undefined`. -/
def stringify (value : JSVal) : Option Json := value.toJson

/-- The call `JSON.parse(text)` on what `getItem` returned: `null` is first
turned into the text `null`; a text that is not JSON throws a `SyntaxError`. -/
def parse : Storage → Except Unit JSVal
  | none => .ok .null
  | some .notJson => .error ()
  | some (.json t) => .ok t.toJS

end JSON

/-- The module-level `cart` as a JS array. -/
abbrev JSCart := List JSVal

/-- The object a line item is. -/
def LineItem.toJS (i : LineItem) : JSVal :=
  .obj [("name", .str i.name), ("price", .num i.price), ("qty", .num i.qty)]

/-- The JS array a cart of line items is. -/
def Cart.toJS (cart : Cart) : JSCart := cart.map LineItem.toJS

/-- The function `saveCart()`, lines 21-23: the new entry of the store.  A
value `JSON.stringify` maps to `undefined` would be stored as the string
`undefined`, which is not JSON. -/
def saveCart (cart : JSCart) : Storage :=
  match JSON.stringify (.arr cart) with
  | some t => some (.json t)
  | none => some .notJson

/-- The function `loadCart()`, lines 25-32: the cart afterwards. -/
def loadCart (store : Storage) (cart : JSCart) : JSCart :=
  match JSON.parse store with
  | .ok (.arr data) => data
  | .ok _ => cart
  | .error _ => cart

/-- What `updateCartUI` leaves on the page and in the store. -/
structure CartView where
  /-- One entry per `li`: name, quantity, formatted line price. -/
  lines : List (String × JSNum × Option String)
  /-- The text of `totalPriceEl`. -/
  totalPrice : Option String
  /-- The value written to `cartCountEl` and `cartCountInlineEl`. -/
  count : JSNum
  /-- The entry of the store after `saveCart()`. -/
  saved : Storage

/-- The function `updateCartUI()`, lines 53-82: what it computes and writes.
Every mutator that changed the cart ends by calling it on the new cart. -/
def updateCartUI (cart : Cart) : CartView :=
  { lines := cart.map (fun item =>
      (item.name, item.qty, formatPrice (item.price.mul item.qty)))
    totalPrice := formatPrice (cartTotal cart)
    count := cartCount cart
    saved := saveCart (Cart.toJS cart) }

/-! ## Sequences of calls -/

/-- A call of one of the four mutators; `changeQty` with the deltas the click
handler passes (lines 140-141). -/
inductive Call where
  | addToCart (name : String) (price : JSNum)
  | changeQtyInc (index : JSNum)
  | changeQtyDec (index : JSNum)
  | removeItem (index : JSNum)
  | clearCart

/-- The cart after one call. -/
def Call.apply (cart : Cart) : Call → Cart
  | .addToCart name price => PizzaMenu.addToCart cart name price
  | .changeQtyInc index => changeQty cart index (.fin 1)
  | .changeQtyDec index => changeQty cart index (.fin (-1))
  | .removeItem index => PizzaMenu.removeItem cart index
  | .clearCart => PizzaMenu.clearCart cart

/-- The cart after a sequence of calls. -/
def runCalls (cart : Cart) (calls : List Call) : Cart :=
  calls.foldl Call.apply cart

/-! ## The data-model invariants -/

/-- Every item has `qty >= 1` and no two items have the same name. -/
def WellFormed (cart : Cart) : Prop :=
  (∀ item ∈ cart, JSNum.le (.fin 1) item.qty = true) ∧ (cart.map (fun i => i.name)).Nodup

/-- The own property `key` of a value, `undefined` when there is none. -/
def JSVal.field (key : String) : JSVal → JSVal
  | .obj props =>
    match props.find? (fun p => p.1 == key) with
    | some p => p.2
    | none => .undefined
  | _ => .undefined

/-- The `qty` of an element of the JS cart is a number that is `>= 1`. -/
def qtyAtLeastOne (item : JSVal) : Bool :=
  match item.field "qty" with
  | .num n => JSNum.le (.fin 1) n
  | _ => false

/-- The invariants on the JS cart. -/
def WellFormedJS (cart : JSCart) : Prop :=
  (∀ item ∈ cart, qtyAtLeastOne item = true) ∧
    (cart.map (JSVal.field "name")).Pairwise (fun a b => a ≠ b)

/-- A number as it comes back from the store: `JSON.stringify` writes a
non-finite number as `null`. -/
def reloadedNum : JSNum → JSVal
  | .fin q => .num (.fin q)
  | _ => .null

/-- A line item as it comes back from the store. -/
def LineItem.reloaded (i : LineItem) : JSVal :=
  .obj [("name", .str i.name), ("price", reloadedNum i.price), ("qty", reloadedNum i.qty)]

/-- The invariant the calls actually keep: every `qty` is a positive integer
no greater than `2 ^ 53` (where adding 1 no longer changes a binary64 value)
and the names are pairwise distinct. -/
def PositiveQty (cart : Cart) : Prop :=
  (∀ item ∈ cart, ∃ n : Nat, 1 ≤ n ∧ n ≤ 2 ^ 53 ∧ item.qty = .fin (n : ℚ)) ∧
    (cart.map (fun i => i.name)).Nodup

/-! ## Lemmas on the helpers -/

theorem find_eq_none {p : LineItem → Bool} {cart : Cart}
    (h : ∀ j ∈ cart, p j = false) : find p cart = none := by
  induction cart with
  | nil => rfl
  | cons i rest ih =>
    have hi : p i = false := h i (List.mem_cons_self _ _)
    have hr : find p rest = none := ih (fun j hj => h j (List.mem_cons_of_mem _ hj))
    simp [find, hi, hr]

theorem find_append_hit {p : LineItem → Bool} (pre post : Cart) (item : LineItem)
    (hpre : ∀ j ∈ pre, p j = false) (hit : p item = true) :
    find p (pre ++ item :: post) = some (pre.length, item) := by
  induction pre with
  | nil => simp [find, hit]
  | cons i rest ih =>
    have hi : p i = false := hpre i (List.mem_cons_self _ _)
    have hr := ih (fun j hj => hpre j (List.mem_cons_of_mem _ hj))
    simp [find, hi, hr]

theorem find_some {p : LineItem → Bool} {cart : Cart} {k : Nat} {e : LineItem}
    (h : find p cart = some (k, e)) :
    cart[k]? = some e ∧ p e = true ∧ ∀ j ∈ cart.take k, p j = false := by
  induction cart generalizing k with
  | nil => simp [find] at h
  | cons i rest ih =>
    by_cases hi : p i = true
    · simp [find, hi] at h
      obtain ⟨rfl, rfl⟩ := h
      simp [hi]
    · have hi0 : p i = false := by simpa using hi
      cases hr : find p rest with
      | none => simp [find, hi0, hr] at h
      | some ke =>
        obtain ⟨k1, e1⟩ := ke
        simp [find, hi0, hr] at h
        obtain ⟨rfl, rfl⟩ := h
        obtain ⟨h1, h2, h3⟩ := ih hr
        refine ⟨by simpa using h1, h2, ?_⟩
        intro j hj
        simp only [List.take_succ_cons, List.mem_cons] at hj
        rcases hj with rfl | hj
        · exact hi0
        · exact h3 j hj

theorem find_none_all {p : LineItem → Bool} {cart : Cart}
    (h : find p cart = none) : ∀ j ∈ cart, p j = false := by
  induction cart with
  | nil => simp
  | cons i rest ih =>
    by_cases hi : p i = true
    · simp [find, hi] at h
    · have hi0 : p i = false := by simpa using hi
      cases hr : find p rest with
      | none =>
        intro j hj
        rcases List.mem_cons.1 hj with rfl | hj
        · exact hi0
        · exact ih hr j hj
      | some ke => simp [find, hi0, hr] at h

theorem set_append_length (pre post : Cart) (item x : LineItem) :
    (pre ++ item :: post).set pre.length x = pre ++ x :: post := by
  induction pre with
  | nil => rfl
  | cons i rest ih => simp [ih]

theorem eraseIdx_append_length (pre post : Cart) (item : LineItem) :
    (pre ++ item :: post).eraseIdx pre.length = pre ++ post := by
  induction pre with
  | nil => rfl
  | cons i rest ih => simp [ih]

theorem getElem?_append_length (pre post : Cart) (item : LineItem) :
    (pre ++ item :: post)[pre.length]? = some item := by
  induction pre with
  | nil => simp
  | cons i rest ih => simpa using ih

theorem arrayIndex_natCast (k : Nat) : arrayIndex (.fin (k : ℚ)) = some k := by
  simp [arrayIndex]

theorem arrayIndex_some {index : JSNum} {k : Nat} (h : arrayIndex index = some k) :
    index = .fin (k : ℚ) := by
  cases index with
  | nan => simp [arrayIndex] at h
  | posInf => simp [arrayIndex] at h
  | negInf => simp [arrayIndex] at h
  | fin q =>
    simp only [arrayIndex] at h
    split at h
    · rename_i hq
      simp at h
      have h1 : ((q.num : ℤ) : ℚ) = q := Rat.coe_int_num_of_den_eq_one hq.1
      have h2 : ((q.num.toNat : ℤ)) = q.num := Int.toNat_of_nonneg hq.2
      congr 1
      rw [← h, ← h1]
      exact_mod_cast h2.symm
    · simp at h

theorem elemAt_append_length (pre post : Cart) (item : LineItem) :
    elemAt (pre ++ item :: post) (.fin (pre.length : ℚ)) = some (pre.length, item) := by
  simp only [elemAt, arrayIndex_natCast, getElem?_append_length]

theorem elemAt_some {cart : Cart} {index : JSNum} {k : Nat} {item : LineItem}
    (h : elemAt cart index = some (k, item)) :
    index = .fin (k : ℚ) ∧ cart[k]? = some item := by
  unfold elemAt at h
  cases ha : arrayIndex index with
  | none => simp [ha] at h
  | some k1 =>
    cases hg : cart[k1]? with
    | none => simp [ha, hg] at h
    | some it =>
      simp [ha, hg] at h
      obtain ⟨rfl, rfl⟩ := h
      exact ⟨arrayIndex_some ha, hg⟩

theorem elemAt_none_of_unresolved {cart : Cart} {index : JSNum}
    (h : ∀ k : Nat, k < cart.length → index ≠ .fin (k : ℚ)) : elemAt cart index = none := by
  cases he : elemAt cart index with
  | none => rfl
  | some ki =>
    obtain ⟨k, item⟩ := ki
    obtain ⟨h1, h2⟩ := elemAt_some he
    have hk : k < cart.length := by
      by_contra hlt
      have : cart[k]? = none := List.getElem?_eq_none (by omega)
      simp [this] at h2
    exact absurd h1 (h k hk)

theorem eraseIdx_set_same (cart : Cart) (k : Nat) (x : LineItem) :
    (cart.set k x).eraseIdx k = cart.eraseIdx k := by
  induction cart generalizing k with
  | nil => rfl
  | cons i rest ih =>
    cases k with
    | zero => rfl
    | succ k => simp [ih]

theorem map_name_set (cart : Cart) (k : Nat) (e x : LineItem)
    (hk : cart[k]? = some e) (hx : x.name = e.name) :
    (cart.set k x).map (fun i => i.name) = cart.map (fun i => i.name) := by
  induction cart generalizing k with
  | nil => rfl
  | cons i rest ih =>
    cases k with
    | zero =>
      simp at hk
      subst hk
      simp [hx]
    | succ k =>
      simp at hk
      simp [ih k hk]

/-! ## Binary64 rounding -/

theorem roundHalfEven_intCast (m : ℤ) : roundHalfEven (m : ℚ) = m := by
  simp [roundHalfEven]

theorem log2_eq {q : ℚ} {L : ℤ} (hq : 0 < q) (h1 : (2 : ℚ) ^ L ≤ q) (h2 : q < 2 ^ (L + 1)) :
    Int.log 2 q = L := by
  have ha : L ≤ Int.log 2 q := (Int.zpow_le_iff_le_log (by norm_num) hq).1 (by exact_mod_cast h1)
  have hb : Int.log 2 q < L + 1 := (Int.lt_zpow_iff_log_lt (by norm_num) hq).1 (by exact_mod_cast h2)
  omega

theorem round64_eval (q : ℚ) (L m : ℤ) (hq : q ≠ 0) (h1 : (2 : ℚ) ^ L ≤ abs q)
    (h2 : abs q < 2 ^ (L + 1)) (hL : -1022 ≤ L)
    (hm : roundHalfEven (q / 2 ^ (L - 52)) = m)
    (hfin : abs ((m : ℚ) * 2 ^ (L - 52)) < 2 ^ 1024) :
    round64 q = .fin ((m : ℚ) * 2 ^ (L - 52)) := by
  have hlog : Int.log 2 (abs q) = L := log2_eq (abs_pos.2 hq) h1 h2
  have hmax : max L (-1022) = L := max_eq_left hL
  simp only [round64, hq, if_false, hlog, hmax, hm]
  rw [if_neg (not_le.2 hfin)]

theorem round64_intCast (z : ℤ) (hz : abs z ≤ 2 ^ 53) : round64 (z : ℚ) = .fin (z : ℚ) := by
  by_cases h0 : z = 0
  · subst h0
    simp [round64]
  have hq : (z : ℚ) ≠ 0 := by exact_mod_cast h0
  have hpos : (0 : ℚ) < abs (z : ℚ) := abs_pos.2 hq
  have hone : (1 : ℚ) ≤ abs (z : ℚ) := by
    have : (1 : ℤ) ≤ abs z := Int.one_le_abs h0
    exact_mod_cast this
  have hle : abs (z : ℚ) ≤ 2 ^ 53 := by exact_mod_cast hz
  obtain ⟨L, hLdef⟩ : ∃ L : ℤ, L = Int.log 2 (abs (z : ℚ)) := ⟨_, rfl⟩
  have h1 : (2 : ℚ) ^ L ≤ abs (z : ℚ) := by
    have h := Int.zpow_log_le_self (by norm_num : 1 < 2) hpos
    rw [Nat.cast_ofNat, ← hLdef] at h
    exact h
  have h2 : abs (z : ℚ) < 2 ^ (L + 1) := by
    have h := Int.lt_zpow_succ_log_self (by norm_num : 1 < 2) (abs (z : ℚ))
    rw [Nat.cast_ofNat, ← hLdef] at h
    exact h
  have hL0 : 0 ≤ L := by
    rw [hLdef]
    refine (Int.zpow_le_iff_le_log (by norm_num : 1 < 2) hpos).1 ?_
    rw [zpow_zero]
    exact hone
  have hL53 : L ≤ 53 := by
    by_contra hcon
    push_neg at hcon
    have : (2 : ℚ) ^ (54 : ℤ) ≤ 2 ^ L := zpow_le_zpow_right₀ (by norm_num) (by omega)
    have h54 : (2 : ℚ) ^ (54 : ℤ) = 2 ^ 54 := by norm_num
    linarith [h54 ▸ this, (by norm_num : (2 : ℚ) ^ 53 < 2 ^ 54)]
  have hex : ∃ m : ℤ, (z : ℚ) / 2 ^ (L - 52) = m := by
    by_cases hL52 : L ≤ 52
    · refine ⟨z * 2 ^ (52 - L).toNat, ?_⟩
      have hnat : ((52 - L).toNat : ℤ) = 52 - L := Int.toNat_of_nonneg (by omega)
      have : (2 : ℚ) ^ (L - 52) = ((2 : ℚ) ^ (52 - L).toNat)⁻¹ := by
        rw [← zpow_natCast, hnat, ← zpow_neg]
        congr 1
        omega
      rw [this]
      push_cast
      field_simp
    · have hL : L = 53 := by omega
      rw [hL] at h1
      have h53 : (2 : ℚ) ^ (53 : ℤ) = 2 ^ 53 := by norm_num
      rw [h53] at h1
      have habs : abs (z : ℚ) = 2 ^ 53 := le_antisymm hle h1
      rcases abs_choice (z : ℚ) with hc | hc
      · refine ⟨2 ^ 52, ?_⟩
        rw [hc] at habs
        rw [habs, hL]
        norm_num
      · refine ⟨-2 ^ 52, ?_⟩
        rw [hc] at habs
        have : (z : ℚ) = -2 ^ 53 := by linarith
        rw [this, hL]
        norm_num
  obtain ⟨m, hm⟩ := hex
  have hu : (2 : ℚ) ^ (L - 52) ≠ 0 := zpow_ne_zero _ (by norm_num)
  have hr : (m : ℚ) * 2 ^ (L - 52) = z := by
    rw [← hm]
    field_simp
  have := round64_eval (z : ℚ) L m hq h1 h2 (by omega) (by rw [hm, roundHalfEven_intCast])
    (by rw [hr]; exact lt_of_le_of_lt hle (by norm_num))
  rw [this, hr]

theorem round64_two_pow_53_add_one : round64 (2 ^ 53 + 1) = .fin (2 ^ 53) := by
  have h := round64_eval (2 ^ 53 + 1) 53 (2 ^ 52) (by norm_num)
    (by rw [abs_of_pos (by norm_num)]; norm_num)
    (by rw [abs_of_pos (by norm_num)]; norm_num) (by norm_num)
    (by
      have hf : ⌊((2 : ℚ) ^ 53 + 1) / 2 ^ ((53 : ℤ) - 52)⌋ = 2 ^ 52 := by
        rw [Int.floor_eq_iff]
        constructor <;> norm_num
      simp only [roundHalfEven, hf]
      norm_num)
    (by rw [abs_of_pos (by norm_num)]; norm_num)
  rw [h]
  norm_num

theorem round64_zero : round64 0 = .fin 0 := by
  simp [round64]

theorem round64_above_two_pow_53 : round64 9007199254740993 = .fin 9007199254740992 := by
  have h := round64_two_pow_53_add_one
  norm_num at h
  exact h

theorem round64_natCast (n : Nat) (hn : n ≤ 2 ^ 53) : round64 (n : ℚ) = .fin (n : ℚ) := by
  have h := round64_intCast (n : ℤ) (by
    rw [abs_of_nonneg (Int.natCast_nonneg n)]
    exact_mod_cast hn)
  simpa using h

theorem add_one_of_positive (n : Nat) (h1 : 1 ≤ n) (h2 : n ≤ 2 ^ 53) :
    ∃ k : Nat, 1 ≤ k ∧ k ≤ 2 ^ 53 ∧ (JSNum.fin (n : ℚ)).add (.fin 1) = .fin (k : ℚ) := by
  by_cases hlt : n < 2 ^ 53
  · refine ⟨n + 1, by omega, by omega, ?_⟩
    have h := round64_natCast (n + 1) (by omega)
    simp only [JSNum.add]
    rw [← h]
    push_cast
    rfl
  · have hn : n = 2 ^ 53 := by omega
    refine ⟨2 ^ 53, by norm_num, le_refl _, ?_⟩
    subst hn
    simp only [JSNum.add]
    norm_num
    exact round64_above_two_pow_53

theorem add_neg_one_of_positive (n : Nat) (h1 : 1 ≤ n) (h2 : n ≤ 2 ^ 53) :
    (JSNum.fin (n : ℚ)).add (.fin (-1)) = .fin ((n - 1 : Nat) : ℚ) := by
  have h := round64_natCast (n - 1) (by omega)
  simp only [JSNum.add]
  rw [← h]
  congr 1
  rw [Nat.cast_sub h1]
  simp
  ring

/-! ## The invariant -/

theorem positiveQty_nil : PositiveQty [] := by
  simp [PositiveQty]

theorem positiveQty_eraseIdx {cart : Cart} (k : Nat) (h : PositiveQty cart) :
    PositiveQty (cart.eraseIdx k) := by
  refine ⟨fun item hi => h.1 item ((List.eraseIdx_sublist cart k).subset hi), ?_⟩
  exact List.Nodup.sublist ((List.eraseIdx_sublist cart k).map _) h.2

theorem positiveQty_set {cart : Cart} {k : Nat} {e x : LineItem} (h : PositiveQty cart)
    (hk : cart[k]? = some e) (hx : x.name = e.name)
    (hq : ∃ n : Nat, 1 ≤ n ∧ n ≤ 2 ^ 53 ∧ x.qty = .fin (n : ℚ)) :
    PositiveQty (cart.set k x) := by
  refine ⟨fun item hi => ?_, ?_⟩
  · rcases List.mem_or_eq_of_mem_set hi with hm | rfl
    · exact h.1 item hm
    · exact hq
  · rw [map_name_set cart k e x hk hx]
    exact h.2

theorem positiveQty_addToCart {cart : Cart} (name : String) (price : JSNum)
    (h : PositiveQty cart) : PositiveQty (addToCart cart name price) := by
  unfold addToCart
  cases hf : find (fun i => i.name == name) cart with
  | none =>
    have hall := find_none_all hf
    refine ⟨fun item hi => ?_, ?_⟩
    · rcases List.mem_append.1 hi with hm | hm
      · exact h.1 item hm
      · have : item = ⟨name, Number price, .fin 1⟩ := by simpa using hm
        subst this
        exact ⟨1, le_refl 1, by norm_num, by simp⟩
    · simp only [List.map_append, List.map_cons, List.map_nil]
      refine List.nodup_append.2 ⟨h.2, List.nodup_singleton _, ?_⟩
      intro a ha hb
      have hab : a = name := by simpa using hb
      subst hab
      obtain ⟨j, hj, hjn⟩ := List.mem_map.1 ha
      have := hall j hj
      simp [hjn] at this
  | some ke =>
    obtain ⟨k, e⟩ := ke
    obtain ⟨hk, -, -⟩ := find_some hf
    obtain ⟨n, hn, hn2, hq⟩ := h.1 e (List.getElem?_mem hk)
    refine positiveQty_set h hk rfl ?_
    simp only [hq]
    exact add_one_of_positive n hn hn2

theorem positiveQty_changeQty_inc {cart : Cart} (index : JSNum) (h : PositiveQty cart) :
    PositiveQty (changeQty cart index (.fin 1)) := by
  unfold changeQty
  cases he : elemAt cart index with
  | none => exact h
  | some ke =>
    obtain ⟨k, e⟩ := ke
    obtain ⟨-, hk⟩ := elemAt_some he
    obtain ⟨n, hn, hn2, hq⟩ := h.1 e (List.getElem?_mem hk)
    have hset : PositiveQty (cart.set k { e with qty := e.qty.add (.fin 1) }) := by
      refine positiveQty_set h hk rfl ?_
      simp only [hq]
      exact add_one_of_positive n hn hn2
    simp only
    split
    · exact positiveQty_eraseIdx k hset
    · exact hset

theorem positiveQty_changeQty_dec {cart : Cart} (index : JSNum) (h : PositiveQty cart) :
    PositiveQty (changeQty cart index (.fin (-1))) := by
  unfold changeQty
  cases he : elemAt cart index with
  | none => exact h
  | some ke =>
    obtain ⟨k, e⟩ := ke
    obtain ⟨-, hk⟩ := elemAt_some he
    obtain ⟨n, hn, hn2, hq⟩ := h.1 e (List.getElem?_mem hk)
    simp only
    split
    · rw [eraseIdx_set_same]
      exact positiveQty_eraseIdx k h
    · rename_i hle
      refine positiveQty_set h hk rfl ?_
      simp only [hq, add_neg_one_of_positive n hn hn2, JSNum.le, decide_eq_true_eq,
        not_le] at hle ⊢
      have hpos : 0 < n - 1 := by exact_mod_cast hle
      exact ⟨n - 1, by omega, by omega, rfl⟩

theorem positiveQty_removeItem {cart : Cart} (index : JSNum) (h : PositiveQty cart) :
    PositiveQty (removeItem cart index) := by
  unfold removeItem
  cases he : elemAt cart index with
  | none => exact h
  | some ke => exact positiveQty_eraseIdx ke.1 h

theorem positiveQty_apply {cart : Cart} (call : Call) (h : PositiveQty cart) :
    PositiveQty (call.apply cart) := by
  cases call with
  | addToCart name price => exact positiveQty_addToCart name price h
  | changeQtyInc index => exact positiveQty_changeQty_inc index h
  | changeQtyDec index => exact positiveQty_changeQty_dec index h
  | removeItem index => exact positiveQty_removeItem index h
  | clearCart => exact positiveQty_nil

theorem positiveQty_runCalls (calls : List Call) {cart : Cart} (h : PositiveQty cart) :
    PositiveQty (runCalls cart calls) := by
  induction calls generalizing cart with
  | nil => exact h
  | cons call rest ih => exact ih (positiveQty_apply call h)

theorem wellFormed_of_positiveQty {cart : Cart} (h : PositiveQty cart) : WellFormed cart := by
  refine ⟨fun item hi => ?_, h.2⟩
  obtain ⟨n, hn, -, hq⟩ := h.1 item hi
  simp only [hq, JSNum.le, decide_eq_true_eq]
  exact_mod_cast hn

/-! ## Digits -/

theorem toDigitsCore_acc (fuel n : Nat) (ds : List Char) :
    Nat.toDigitsCore 10 fuel n ds = Nat.toDigitsCore 10 fuel n [] ++ ds := by
  induction fuel generalizing n ds with
  | zero => simp [Nat.toDigitsCore]
  | succ f ih =>
    simp only [Nat.toDigitsCore]
    split
    · simp
    · rw [ih (n / 10) (Nat.digitChar (n % 10) :: ds), ih (n / 10) [Nat.digitChar (n % 10)]]
      simp

theorem toDigitsCore_fuel (fuel : Nat) : ∀ (n : Nat) (ds : List Char), n < fuel →
    Nat.toDigitsCore 10 fuel n ds = Nat.toDigitsCore 10 (n + 1) n ds := by
  induction fuel using Nat.strong_induction_on with
  | _ fuel ih =>
    intro n ds hn
    cases fuel with
    | zero => omega
    | succ f =>
      simp only [Nat.toDigitsCore]
      by_cases h0 : n / 10 = 0
      · simp [h0]
      · simp only [h0, if_false]
        have hlt : n / 10 < n := Nat.div_lt_self (by omega) (by omega)
        rw [ih f (by omega) (n / 10) _ (by omega), ih n (by omega) (n / 10) _ hlt]

theorem toDigits_lt_ten (n : Nat) (h : n < 10) : Nat.toDigits 10 n = [Nat.digitChar n] := by
  have h0 : n / 10 = 0 := Nat.div_eq_of_lt h
  simp [Nat.toDigits, Nat.toDigitsCore, h0, Nat.mod_eq_of_lt h]

theorem toDigits_ten_le (n : Nat) (h : 10 ≤ n) :
    Nat.toDigits 10 n = Nat.toDigits 10 (n / 10) ++ [Nat.digitChar (n % 10)] := by
  have h0 : n / 10 ≠ 0 := by omega
  have hlt : n / 10 < n := Nat.div_lt_self (by omega) (by omega)
  have hstep : Nat.toDigitsCore 10 (n + 1) n [] =
      Nat.toDigitsCore 10 n (n / 10) [Nat.digitChar (n % 10)] := by
    simp only [Nat.toDigitsCore, h0, if_false]
  rw [Nat.toDigits, hstep, toDigitsCore_acc, toDigitsCore_fuel n (n / 10) [] hlt, Nat.toDigits]

theorem toDigits_length_pos (n : Nat) : 0 < (Nat.toDigits 10 n).length := by
  by_cases h : n < 10
  · simp [toDigits_lt_ten n h]
  · rw [toDigits_ten_le n (by omega)]
    simp

theorem fixedDigits_two (n : Nat) :
    fixedDigits n 2 = Nat.toDigits 10 (n / 100) ++
      ['.', Nat.digitChar (n / 10 % 10), Nat.digitChar (n % 10)] := by
  by_cases h1 : n < 10
  · have e1 : n / 100 = 0 := Nat.div_eq_of_lt (by omega)
    have e2 : n / 10 = 0 := Nat.div_eq_of_lt h1
    have e3 : n % 10 = n := Nat.mod_eq_of_lt h1
    simp [fixedDigits, toDigits_lt_ten n h1, e1, e2, e3, toDigits_lt_ten 0]
    decide
  · by_cases h2 : n < 100
    · have e1 : n / 100 = 0 := Nat.div_eq_of_lt h2
      have e2 : n / 10 % 10 = n / 10 := Nat.mod_eq_of_lt (by omega)
      rw [fixedDigits, toDigits_ten_le n (by omega), toDigits_lt_ten (n / 10) (by omega), e1, e2,
        toDigits_lt_ten 0 (by omega)]
      simp
      decide
    · have e : n / 10 / 10 = n / 100 := by rw [Nat.div_div_eq_div_mul]
      rw [fixedDigits, toDigits_ten_le n (by omega), toDigits_ten_le (n / 10) (by omega), e]
      have hp := toDigits_length_pos (n / 100)
      have hlen : ¬ ((Nat.toDigits 10 (n / 100) ++ [Nat.digitChar (n / 10 % 10)] ++
          [Nat.digitChar (n % 10)]).length ≤ 2) := by
        simp only [List.length_append, List.length_singleton]
        omega
      simp only [hlen, if_false]
      simp

/-! ## Rounding -/

theorem abs_eq_natAbs_div_den (q : ℚ) : abs q = (q.num.natAbs : ℚ) / (q.den : ℚ) := by
  rw [Rat.abs_def]
  exact (Rat.natCast_div_eq_divInt q.num.natAbs q.den).symm

theorem nearestScaled_close (q : ℚ) :
    abs (((nearestScaled q 2 : ℕ) : ℚ) / 100 - abs q) ≤ 1 / 200 := by
  have hd : 0 < q.den := q.den_pos
  have hdq : (0 : ℚ) < (q.den : ℚ) := by exact_mod_cast hd
  have hx : abs q * (q.den : ℚ) = (q.num.natAbs : ℚ) := by
    rw [abs_eq_natAbs_div_den]
    field_simp
  have hn : nearestScaled q 2 = (2 * q.num.natAbs * 10 ^ 2 + q.den) / (2 * q.den) := rfl
  have h1 : nearestScaled q 2 * (2 * q.den) ≤ 2 * q.num.natAbs * 10 ^ 2 + q.den := by
    rw [hn]
    exact Nat.div_mul_le_self _ _
  have h2 : 2 * q.num.natAbs * 10 ^ 2 + q.den < nearestScaled q 2 * (2 * q.den) + 2 * q.den := by
    rw [hn]
    exact Nat.lt_div_mul_add (by omega)
  have h1q : ((nearestScaled q 2 : ℕ) : ℚ) * (2 * q.den) ≤ 2 * q.num.natAbs * 10 ^ 2 + q.den := by
    exact_mod_cast h1
  have h2q : (2 * q.num.natAbs * 10 ^ 2 + q.den : ℚ)
      < ((nearestScaled q 2 : ℕ) : ℚ) * (2 * q.den) + 2 * q.den := by
    exact_mod_cast h2
  rw [← hx] at h1q h2q
  rw [abs_le]
  constructor
  · by_contra hneg
    push_neg at hneg
    nlinarith [mul_pos hdq (sub_pos.2 hneg)]
  · by_contra hneg
    push_neg at hneg
    nlinarith [mul_pos hdq (sub_pos.2 hneg)]


theorem round64_two : round64 2 = .fin 2 := by
  simpa using round64_natCast 2 (by norm_num)

theorem round64_ten : round64 10 = .fin 10 := by
  simpa using round64_natCast 10 (by norm_num)

theorem round64_seventeen : round64 17 = .fin 17 := by
  simpa using round64_natCast 17 (by norm_num)

theorem round64_5005 :
    round64 (5005 / 1000) = .fin (5635129033747333 / 1125899906842624) := by
  have h := round64_eval (5005 / 1000) 2 5635129033747333 (by norm_num)
    (by rw [abs_of_pos (by norm_num)]; norm_num)
    (by rw [abs_of_pos (by norm_num)]; norm_num) (by norm_num)
    (by
      have hf : ⌊(5005 / 1000 : ℚ) / 2 ^ ((2 : ℤ) - 52)⌋ = 5635129033747333 := by
        rw [Int.floor_eq_iff]
        constructor <;> norm_num
      simp only [roundHalfEven, hf]
      norm_num)
    (by rw [abs_of_pos (by norm_num)]; norm_num)
  rw [h]
  norm_num

theorem round64_5005_times_3 :
    round64 (5635129033747333 / 1125899906842624 * 3)
      = .fin (1056586693827625 / 70368744177664) := by
  have h := round64_eval (5635129033747333 / 1125899906842624 * 3) 3 8452693550621000
    (by norm_num)
    (by rw [abs_of_pos (by norm_num)]; norm_num)
    (by rw [abs_of_pos (by norm_num)]; norm_num) (by norm_num)
    (by
      have hf : ⌊(5635129033747333 / 1125899906842624 * 3 : ℚ) / 2 ^ ((3 : ℤ) - 52)⌋
          = 8452693550620999 := by
        rw [Int.floor_eq_iff]
        constructor <;> norm_num
      simp only [roundHalfEven, hf]
      norm_num)
    (by rw [abs_of_pos (by norm_num)]; norm_num)
  rw [h]
  norm_num

theorem round64_15015 :
    round64 (0 + 1056586693827625 / 70368744177664)
      = .fin (1056586693827625 / 70368744177664) := by
  have h := round64_eval (0 + 1056586693827625 / 70368744177664) 3 8452693550621000
    (by norm_num)
    (by rw [abs_of_pos (by norm_num)]; norm_num)
    (by rw [abs_of_pos (by norm_num)]; norm_num) (by norm_num)
    (by
      have hx : (0 + 1056586693827625 / 70368744177664 : ℚ) / 2 ^ ((3 : ℤ) - 52)
          = ((8452693550621000 : ℤ) : ℚ) := by norm_num
      rw [hx, roundHalfEven_intCast])
    (by rw [abs_of_pos (by norm_num)]; norm_num)
  rw [h]
  norm_num

theorem cartTotal_append (cart : Cart) (item : LineItem) :
    cartTotal (cart ++ [item]) = (cartTotal cart).add (item.price.mul item.qty) := by
  simp [cartTotal, List.foldl_append]

theorem cartCount_append (cart : Cart) (item : LineItem) :
    cartCount (cart ++ [item]) = (cartCount cart).add item.qty := by
  simp [cartCount, List.foldl_append]

theorem foldl_count_natural (cart : Cart) : ∀ (ns : List Nat) (c : Nat),
    cart.map (fun i => i.qty) = ns.map (fun (n : Nat) => JSNum.fin (n : ℚ)) →
    c + ns.sum ≤ 2 ^ 53 →
    cart.foldl (fun (sum : JSNum) (i : LineItem) => sum.add i.qty) (.fin (c : ℚ))
      = .fin ((c + ns.sum : Nat) : ℚ) := by
  induction cart with
  | nil =>
    intro ns c hmap _
    cases ns with
    | nil => simp
    | cons n rest => simp at hmap
  | cons i rest ih =>
    intro ns c hmap hsum
    cases ns with
    | nil => simp at hmap
    | cons n ns1 =>
      simp only [List.map_cons, List.cons.injEq] at hmap
      simp only [List.sum_cons] at hsum
      have hstep : (JSNum.fin (c : ℚ)).add i.qty = .fin ((c + n : Nat) : ℚ) := by
        rw [hmap.1]
        simp only [JSNum.add]
        rw [← round64_natCast (c + n) (by omega)]
        push_cast
        rfl
      simp only [List.foldl_cons, hstep, List.sum_cons]
      rw [ih ns1 (c + n) hmap.2 (by omega)]
      congr 2
      omega

/-! ## The mutators -/

/-- C1, amended. When some item has the name, `addToCart` replaces the `qty`
of the first such item by the JS sum `qty + 1` and changes nothing else
(length, order, that item's name and price, every other item), whatever
price was passed; the sum is `qty + 1` exactly whenever `qty` is an integer
and `qty + 1` has magnitude at most `2 ^ 53`.  When no item has the name it
appends `{name, price: Number(price), qty: 1}`.  Two calls with the same name
on the empty cart leave one item with `qty` 2. -/
theorem addToCart_contract :
    (∀ (pre post : Cart) (item : LineItem) (price : JSNum),
      (∀ j ∈ pre, j.name ≠ item.name) →
      addToCart (pre ++ item :: post) item.name price
        = pre ++ ⟨item.name, item.price, item.qty.add (.fin 1)⟩ :: post) ∧
    (∀ z : ℤ, abs (z + 1) ≤ 2 ^ 53 →
      (JSNum.fin (z : ℚ)).add (.fin 1) = .fin ((z : ℚ) + 1)) ∧
    (∀ (cart : Cart) (name : String) (price : JSNum),
      (∀ j ∈ cart, j.name ≠ name) →
      addToCart cart name price = cart ++ [⟨name, Number price, .fin 1⟩]) ∧
    (∀ (name : String) (p1 p2 : JSNum),
      addToCart (addToCart [] name p1) name p2 = [⟨name, Number p1, .fin 2⟩]) := by
  refine ⟨?_, ?_, ?_, ?_⟩
  · intro pre post item price hpre
    have h : find (fun i => i.name == item.name) (pre ++ item :: post)
        = some (pre.length, item) :=
      find_append_hit pre post item (fun j hj => by simpa using hpre j hj) (by simp)
    simp only [addToCart, h, set_append_length]
  · intro z hz
    have h := round64_intCast (z + 1) hz
    simp only [JSNum.add]
    push_cast at h
    exact h
  · intro cart name price hcart
    have h : find (fun i => i.name == name) cart = none :=
      find_eq_none (fun j hj => by simpa using hcart j hj)
    simp only [addToCart, h]
  · intro name p1 p2
    have h2 : round64 ((1 : ℚ) + 1) = .fin 2 := by
      have h := round64_natCast 2 (by norm_num)
      norm_num at h ⊢
      exact h
    simp [addToCart, find, JSNum.add, h2]

/-- C1, amended, at a cart where the name occurs twice (only the first
occurrence counts), at a name the cart does not hold, and at `qty` 4. -/
theorem addToCart_contract_witness :
    addToCart ([⟨"A", .fin 5, .fin 1⟩] ++ ⟨"B", .fin 3, .fin 4⟩ :: [⟨"B", .fin 3, .fin 1⟩])
        "B" .nan
      = [⟨"A", .fin 5, .fin 1⟩] ++ ⟨"B", .fin 3, (JSNum.fin 4).add (.fin 1)⟩ ::
          [⟨"B", .fin 3, .fin 1⟩] ∧
    addToCart [⟨"A", .fin 5, .fin 1⟩] "B" (.fin 3)
      = [⟨"A", .fin 5, .fin 1⟩] ++ [⟨"B", Number (.fin 3), .fin 1⟩] ∧
    (JSNum.fin ((4 : ℤ) : ℚ)).add (.fin 1) = .fin (((4 : ℤ) : ℚ) + 1) :=
  ⟨addToCart_contract.1 [⟨"A", .fin 5, .fin 1⟩] [⟨"B", .fin 3, .fin 1⟩] ⟨"B", .fin 3, .fin 4⟩ .nan
      (by decide),
    addToCart_contract.2.2.1 [⟨"A", .fin 5, .fin 1⟩] "B" (.fin 3) (by decide),
    addToCart_contract.2.1 4 (by norm_num)⟩

/-- C1, as stated, fails: on an item whose `qty` is `2 ^ 53` the call leaves
the `qty` at `2 ^ 53`, since `2 ^ 53 + 1` is no binary64 value. -/
theorem addToCart_at_two_pow_53 :
    addToCart [⟨"A", .fin 5, .fin (2 ^ 53)⟩] "A" (.fin 5) = [⟨"A", .fin 5, .fin (2 ^ 53)⟩] ∧
    addToCart [⟨"A", .fin 5, .fin (2 ^ 53)⟩] "A" (.fin 5)
      ≠ [⟨"A", .fin 5, .fin (2 ^ 53 + 1)⟩] := by
  have h : addToCart [⟨"A", .fin 5, .fin (2 ^ 53)⟩] "A" (.fin 5)
      = [⟨"A", .fin 5, .fin (2 ^ 53)⟩] := by
    norm_num [addToCart, find, JSNum.add, round64_above_two_pow_53]
  refine ⟨h, ?_⟩
  rw [h]
  norm_num

/-- C2, amended. For an index that resolves to an item, `changeQty` replaces
that item's `qty` by the JS sum `qty + delta`, which is `qty + delta` exactly
whenever both are integers and their sum has magnitude at most `2 ^ 53`; when
the new `qty` is `<= 0` the item is removed and the other items keep their
values and order, otherwise only that `qty` differs.  A single item of `qty`
1 decremented at index 0 leaves the empty cart.  An index that resolves to no
item leaves the cart unchanged. -/
theorem changeQty_contract :
    (∀ (pre post : Cart) (item : LineItem) (delta : JSNum),
      changeQty (pre ++ item :: post) (.fin (pre.length : ℚ)) delta
        = if (item.qty.add delta).le (.fin 0) = true then pre ++ post
          else pre ++ ⟨item.name, item.price, item.qty.add delta⟩ :: post) ∧
    (∀ z d : ℤ, abs (z + d) ≤ 2 ^ 53 →
      (JSNum.fin (z : ℚ)).add (.fin (d : ℚ)) = .fin ((z : ℚ) + d)) ∧
    (∀ (name : String) (price : JSNum),
      changeQty [⟨name, price, .fin 1⟩] (.fin 0) (.fin (-1)) = []) ∧
    (∀ (cart : Cart) (index delta : JSNum),
      (∀ k : Nat, k < cart.length → index ≠ .fin (k : ℚ)) →
      changeQty cart index delta = cart) := by
  refine ⟨?_, ?_, ?_, ?_⟩
  · intro pre post item delta
    simp only [changeQty, elemAt_append_length, eraseIdx_set_same, eraseIdx_append_length,
      set_append_length]
  · intro z d hz
    have h := round64_intCast (z + d) hz
    simp only [JSNum.add]
    push_cast at h
    exact h
  · intro name price
    simp [changeQty, elemAt, arrayIndex, JSNum.add, JSNum.le, round64_zero]
  · intro cart index delta h
    simp only [changeQty, elemAt_none_of_unresolved h]

/-- C2, amended, at indices out of range, negative, fractional and `NaN`,
and at `qty` 4 with `delta` -1. -/
theorem changeQty_contract_witness :
    (JSNum.fin ((4 : ℤ) : ℚ)).add (.fin ((-1 : ℤ) : ℚ)) = .fin (((4 : ℤ) : ℚ) + ((-1 : ℤ) : ℚ)) ∧
    changeQty [⟨"A", .fin 5, .fin 1⟩] (.fin 1) (.fin (-1)) = [⟨"A", .fin 5, .fin 1⟩] ∧
    changeQty [⟨"A", .fin 5, .fin 1⟩] (.fin (-1)) (.fin (-1)) = [⟨"A", .fin 5, .fin 1⟩] ∧
    changeQty [⟨"A", .fin 5, .fin 1⟩] (.fin (1 / 2)) (.fin (-1)) = [⟨"A", .fin 5, .fin 1⟩] ∧
    changeQty [⟨"A", .fin 5, .fin 1⟩] .nan (.fin (-1)) = [⟨"A", .fin 5, .fin 1⟩] :=
  ⟨changeQty_contract.2.1 4 (-1) (by norm_num),
    changeQty_contract.2.2.2 _ _ _ (by
      intro k hk
      have : k = 0 := by simpa using hk
      subst this
      simp),
    changeQty_contract.2.2.2 _ _ _ (by
      intro k hk
      have : k = 0 := by simpa using hk
      subst this
      norm_num),
    changeQty_contract.2.2.2 _ _ _ (by
      intro k hk
      have : k = 0 := by simpa using hk
      subst this
      norm_num),
    changeQty_contract.2.2.2 _ _ _ (by
      intro k hk
      simp)⟩

/-- C2, as stated, fails: on an item whose `qty` is `2 ^ 53 + 2` a `delta`
of -1 leaves `2 ^ 53`, two less, and on an item whose `qty` is `2 ^ 53` a
`delta` of 1 leaves the `qty` as it was. -/
theorem changeQty_at_two_pow_53 :
    changeQty [⟨"A", .fin 5, .fin (2 ^ 53 + 2)⟩] (.fin 0) (.fin (-1))
      = [⟨"A", .fin 5, .fin (2 ^ 53)⟩] ∧
    changeQty [⟨"A", .fin 5, .fin (2 ^ 53 + 2)⟩] (.fin 0) (.fin (-1))
      ≠ [⟨"A", .fin 5, .fin (2 ^ 53 + 2 + -1)⟩] ∧
    changeQty [⟨"A", .fin 5, .fin (2 ^ 53)⟩] (.fin 0) (.fin 1)
      = [⟨"A", .fin 5, .fin (2 ^ 53)⟩] := by
  have hle : JSNum.le (.fin (2 ^ 53)) (.fin 0) = false := by
    simp only [JSNum.le, decide_eq_false_iff_not, not_le]
    norm_num
  have hat : ∀ q : ℚ, elemAt [⟨"A", .fin 5, .fin q⟩] (.fin 0)
      = some (0, ⟨"A", .fin 5, .fin q⟩) := by
    intro q
    simp [elemAt, arrayIndex]
  have hdec : (JSNum.fin (2 ^ 53 + 2)).add (.fin (-1)) = .fin (2 ^ 53) := by
    simp only [JSNum.add]
    norm_num
    exact round64_above_two_pow_53
  have hinc : (JSNum.fin (2 ^ 53)).add (.fin 1) = .fin (2 ^ 53) := by
    simp only [JSNum.add]
    norm_num
    exact round64_above_two_pow_53
  have h : changeQty [⟨"A", .fin 5, .fin (2 ^ 53 + 2)⟩] (.fin 0) (.fin (-1))
      = [⟨"A", .fin 5, .fin (2 ^ 53)⟩] := by
    simp only [changeQty, hat, hdec, hle]
    simp
  refine ⟨h, ?_, ?_⟩
  · rw [h]
    norm_num
  · simp only [changeQty, hat, hinc, hle]
    simp

/-- C4. For an index that resolves to an item, `removeItem` deletes exactly
that item and keeps the others in their order (one element fewer); for an
index that resolves to none (out of range, negative, not an index) it
returns the cart as it was. -/
theorem removeItem_contract :
    (∀ (pre post : Cart) (item : LineItem),
      removeItem (pre ++ item :: post) (.fin (pre.length : ℚ)) = pre ++ post ∧
      (removeItem (pre ++ item :: post) (.fin (pre.length : ℚ))).length + 1
        = (pre ++ item :: post).length) ∧
    (∀ (cart : Cart) (index : JSNum),
      (∀ k : Nat, k < cart.length → index ≠ .fin (k : ℚ)) →
      removeItem cart index = cart) := by
  refine ⟨?_, ?_⟩
  · intro pre post item
    have h : removeItem (pre ++ item :: post) (.fin (pre.length : ℚ)) = pre ++ post := by
      simp only [removeItem, elemAt_append_length, eraseIdx_append_length]
    refine ⟨h, ?_⟩
    rw [h]
    simp
    omega
  · intro cart index h
    simp only [removeItem, elemAt_none_of_unresolved h]

/-- C4, at indices out of range, negative, fractional, `NaN` and infinite. -/
theorem removeItem_contract_witness :
    removeItem [⟨"A", .fin 5, .fin 1⟩] (.fin 1) = [⟨"A", .fin 5, .fin 1⟩] ∧
    removeItem [⟨"A", .fin 5, .fin 1⟩] (.fin (-1)) = [⟨"A", .fin 5, .fin 1⟩] ∧
    removeItem [⟨"A", .fin 5, .fin 1⟩] (.fin (1 / 2)) = [⟨"A", .fin 5, .fin 1⟩] ∧
    removeItem [⟨"A", .fin 5, .fin 1⟩] .nan = [⟨"A", .fin 5, .fin 1⟩] ∧
    removeItem [⟨"A", .fin 5, .fin 1⟩] .posInf = [⟨"A", .fin 5, .fin 1⟩] :=
  ⟨removeItem_contract.2 _ _ (by
      intro k hk
      have : k = 0 := by simpa using hk
      subst this
      simp),
    removeItem_contract.2 _ _ (by
      intro k hk
      have : k = 0 := by simpa using hk
      subst this
      norm_num),
    removeItem_contract.2 _ _ (by
      intro k hk
      have : k = 0 := by simpa using hk
      subst this
      norm_num),
    removeItem_contract.2 _ _ (by
      intro k hk
      simp),
    removeItem_contract.2 _ _ (by
      intro k hk
      simp)⟩

/-- C3. After any finite sequence of `addToCart`, `changeQty` by +1 or -1,
`removeItem` and `clearCart` calls from the empty cart, every item has
`qty >= 1` and no two items have the same name. -/
theorem runCalls_wellFormed (calls : List Call) :
    (∀ item ∈ runCalls [] calls, JSNum.le (.fin 1) item.qty = true) ∧
      ((runCalls [] calls).map (fun i => i.name)).Nodup :=
  wellFormed_of_positiveQty (positiveQty_runCalls calls positiveQty_nil)

/-- C5, amended. The function `updateCartUI` adds `price * qty` item by item
from 0 into `total` and `qty` item by item from 0 into `count`, each product
and each partial sum rounded to binary64; it shows `formatPrice(total)`.  An
item adds exactly `price * qty` to the total when neither the product nor the
sum needs rounding, and the count is the exact sum of the quantities when they
are non-negative integers summing to at most `2 ^ 53` (it is not the number of
items).  A finite total of magnitude below `10 ^ 21` is shown rounded to the
nearest hundredth with two decimals, `NaN` is shown as `NaN`.  After
`addToCart("Margherita", 8.50)` twice on the empty cart the total shown is
`17.00` and the count is 2, for a single item. -/
theorem updateCartUI_totals :
    (∀ cart : Cart,
      (updateCartUI cart).totalPrice = formatPrice (cartTotal cart) ∧
      (updateCartUI cart).count = cartCount cart) ∧
    (cartTotal [] = .fin 0 ∧ cartCount [] = .fin 0 ∧
      ∀ (cart : Cart) (item : LineItem),
        cartTotal (cart ++ [item]) = (cartTotal cart).add (item.price.mul item.qty) ∧
        cartCount (cart ++ [item]) = (cartCount cart).add item.qty) ∧
    (∀ (cart : Cart) (item : LineItem) (t p q : ℚ),
      cartTotal cart = .fin t → item.price = .fin p → item.qty = .fin q →
      round64 (p * q) = .fin (p * q) → round64 (t + p * q) = .fin (t + p * q) →
      cartTotal (cart ++ [item]) = .fin (t + p * q)) ∧
    (∀ (cart : Cart) (ns : List Nat),
      cart.map (fun i => i.qty) = ns.map (fun (n : Nat) => JSNum.fin (n : ℚ)) →
      ns.sum ≤ 2 ^ 53 →
      cartCount cart = .fin (ns.sum : ℚ)) ∧
    (∀ q : ℚ, abs q < 10 ^ 21 →
      formatPrice (.fin q)
        = some (String.mk ((if q < 0 then ['-'] else []) ++
            (Nat.toDigits 10 (nearestScaled q 2 / 100) ++
              ['.', Nat.digitChar (nearestScaled q 2 / 10 % 10),
                Nat.digitChar (nearestScaled q 2 % 10)]))) ∧
      abs (((nearestScaled q 2 : ℕ) : ℚ) / 100 - abs q) ≤ 1 / 200) ∧
    formatPrice .nan = some "NaN" ∧
    (addToCart (addToCart [] "Margherita" (.fin 8.5)) "Margherita" (.fin 8.5)
        = [⟨"Margherita", .fin 8.5, .fin 2⟩] ∧
      (updateCartUI (addToCart (addToCart [] "Margherita" (.fin 8.5)) "Margherita"
        (.fin 8.5))).totalPrice = some "17.00" ∧
      (updateCartUI (addToCart (addToCart [] "Margherita" (.fin 8.5)) "Margherita"
        (.fin 8.5))).count = .fin 2) := by
  refine ⟨fun cart => ⟨rfl, rfl⟩, ⟨rfl, rfl, fun cart item =>
    ⟨cartTotal_append cart item, cartCount_append cart item⟩⟩, ?_, ?_,
    fun q hq => ⟨?_, nearestScaled_close q⟩, rfl, ?_⟩
  · intro cart item t p q ht hp hq h1 h2
    rw [cartTotal_append, ht, hp, hq]
    simp only [JSNum.mul, JSNum.add, h1, h2]
  · intro cart ns hmap hsum
    have h := foldl_count_natural cart ns 0 hmap (by omega)
    simp only [Nat.zero_add] at h
    rw [cartCount]
    exact_mod_cast h
  · have hd : (0 : ℚ) < (q.den : ℚ) := by exact_mod_cast q.den_pos
    have habs := abs_eq_natAbs_div_den q
    have hlt : ¬ (10 ^ 21 * q.den ≤ q.num.natAbs) := by
      intro hle
      have hleq : ((10 : ℚ) ^ 21 * q.den) ≤ (q.num.natAbs : ℚ) := by exact_mod_cast hle
      rw [habs, div_lt_iff₀ hd] at hq
      linarith
    simp only [formatPrice, Number, toFixed, hlt, if_false, fixedDigits_two]
  · have hcart : addToCart (addToCart [] "Margherita" (.fin 8.5)) "Margherita" (.fin 8.5)
        = [⟨"Margherita", .fin 8.5, .fin 2⟩] := by
      norm_num [addToCart, find, JSNum.add, Number, round64_two]
    rw [hcart]
    refine ⟨rfl, ?_, ?_⟩
    · have ht : cartTotal [⟨"Margherita", .fin 8.5, .fin 2⟩] = .fin 17 := by
        norm_num [cartTotal, JSNum.add, JSNum.mul, round64_seventeen]
      simp only [updateCartUI, ht]
      norm_num [formatPrice, Number, toFixed, nearestScaled]
      decide
    · norm_num [updateCartUI, cartCount, JSNum.add, round64_two]

/-- C5, amended: the Margherita line added to the empty cart without
rounding, the count of quantities 2 and 1, and the total 8.5 shown from the
nearest number of hundredths, 850. -/
theorem updateCartUI_totals_witness :
    cartTotal ([] ++ [⟨"Margherita", .fin 8.5, .fin 2⟩]) = .fin (0 + 8.5 * 2) ∧
    cartCount [⟨"A", .fin 5, .fin ((2 : Nat) : ℚ)⟩, ⟨"B", .fin 3, .fin ((1 : Nat) : ℚ)⟩]
      = .fin (([2, 1] : List Nat).sum : ℚ) ∧
    (formatPrice (.fin 8.5)
        = some (String.mk ((if (8.5 : ℚ) < 0 then ['-'] else []) ++
            (Nat.toDigits 10 (nearestScaled 8.5 2 / 100) ++
              ['.', Nat.digitChar (nearestScaled 8.5 2 / 10 % 10),
                Nat.digitChar (nearestScaled 8.5 2 % 10)]))) ∧
      abs (((nearestScaled 8.5 2 : ℕ) : ℚ) / 100 - abs (8.5 : ℚ)) ≤ 1 / 200) :=
  ⟨updateCartUI_totals.2.2.1 [] ⟨"Margherita", .fin 8.5, .fin 2⟩ 0 8.5 2 rfl rfl rfl
      (by norm_num [round64_seventeen]) (by norm_num [round64_seventeen]),
    updateCartUI_totals.2.2.2.1
      [⟨"A", .fin 5, .fin ((2 : Nat) : ℚ)⟩, ⟨"B", .fin 3, .fin ((1 : Nat) : ℚ)⟩] [2, 1] rfl
      (by norm_num),
    updateCartUI_totals.2.2.2.2.1 8.5 (by
      rw [abs_lt]
      constructor <;> norm_num)⟩

/-- C5, as stated, fails.  With the price 5.005, whose binary64 value is
`5635129033747333 / 2 ^ 50`, and `qty` 3 the product is rounded up to
`1056586693827625 / 2 ^ 46` and the total is shown as `15.02`, while
`price * qty`, about 15.01499999999999968, rounded to two decimals is
`15.01`.  With a price that is `NaN` the total is shown as `NaN`. -/
theorem updateCartUI_total_is_rounded :
    round64 (5005 / 1000) = .fin (5635129033747333 / 1125899906842624) ∧
    cartTotal [⟨"A", .fin (5635129033747333 / 1125899906842624), .fin 3⟩]
      = .fin (1056586693827625 / 70368744177664) ∧
    cartTotal [⟨"A", .fin (5635129033747333 / 1125899906842624), .fin 3⟩]
      ≠ .fin (5635129033747333 / 1125899906842624 * 3) ∧
    (updateCartUI [⟨"A", .fin (5635129033747333 / 1125899906842624), .fin 3⟩]).totalPrice
      = some "15.02" ∧
    formatPrice (.fin (5635129033747333 / 1125899906842624 * 3)) = some "15.01" ∧
    (updateCartUI [⟨"A", .nan, .fin 1⟩]).totalPrice = some "NaN" := by
  have ht : cartTotal [⟨"A", .fin (5635129033747333 / 1125899906842624), .fin 3⟩]
      = .fin (1056586693827625 / 70368744177664) := by
    simp only [cartTotal, List.foldl_cons, List.foldl_nil, JSNum.mul, JSNum.add,
      round64_5005_times_3, round64_15015]
  refine ⟨round64_5005, ht, ?_, ?_, ?_, ?_⟩
  · rw [ht]
    norm_num
  · simp only [updateCartUI, ht]
    norm_num [formatPrice, Number, toFixed, nearestScaled]
    decide
  · norm_num [formatPrice, Number, toFixed, nearestScaled]
    decide
  · simp [updateCartUI, cartTotal, JSNum.mul, JSNum.add, formatPrice, Number, toFixed]

/-- C9. After `clearCart()`, from any cart, the cart is empty and the total
and count shown by `updateCartUI` are `0.00` and 0. -/
theorem clearCart_empties (cart : Cart) :
    clearCart cart = [] ∧
    (updateCartUI (clearCart cart)).totalPrice = some "0.00" ∧
    (updateCartUI (clearCart cart)).count = .fin 0 := by
  refine ⟨rfl, ?_, rfl⟩
  simp only [clearCart, updateCartUI, cartTotal, List.foldl_nil]
  norm_num [formatPrice, Number, toFixed, nearestScaled]
  decide

/-- C10. From the empty cart, `addToCart("A", 5)`, `addToCart("B", 3)`,
`addToCart("A", 5)` put "B" at index 1, and `changeQty(1, -1)` then leaves
exactly `[{name: "A", price: 5, qty: 2}]`, shown with total `10.00` and
count 2. -/
theorem scenario_add_add_add_dec :
    addToCart (addToCart (addToCart [] "A" (.fin 5)) "B" (.fin 3)) "A" (.fin 5)
      = [⟨"A", .fin 5, .fin 2⟩, ⟨"B", .fin 3, .fin 1⟩] ∧
    changeQty (addToCart (addToCart (addToCart [] "A" (.fin 5)) "B" (.fin 3)) "A" (.fin 5))
        (.fin 1) (.fin (-1))
      = [⟨"A", .fin 5, .fin 2⟩] ∧
    (updateCartUI (changeQty
        (addToCart (addToCart (addToCart [] "A" (.fin 5)) "B" (.fin 3)) "A" (.fin 5))
        (.fin 1) (.fin (-1)))).totalPrice = some "10.00" ∧
    (updateCartUI (changeQty
        (addToCart (addToCart (addToCart [] "A" (.fin 5)) "B" (.fin 3)) "A" (.fin 5))
        (.fin 1) (.fin (-1)))).count = .fin 2 := by
  have hadd : addToCart (addToCart (addToCart [] "A" (.fin 5)) "B" (.fin 3)) "A" (.fin 5)
      = [⟨"A", .fin 5, .fin 2⟩, ⟨"B", .fin 3, .fin 1⟩] := by
    have h2 : round64 ((1 : ℚ) + 1) = .fin 2 := by
      norm_num [round64_two]
    simp [addToCart, find, JSNum.add, Number, h2]
  have hdec : changeQty [⟨"A", .fin 5, .fin 2⟩, ⟨"B", .fin 3, .fin 1⟩] (.fin 1) (.fin (-1))
      = [⟨"A", .fin 5, .fin 2⟩] := by
    simp [changeQty, elemAt, arrayIndex, JSNum.add, JSNum.le, round64_zero]
  rw [hadd, hdec]
  refine ⟨rfl, rfl, ?_, ?_⟩
  · have ht : cartTotal [⟨"A", .fin 5, .fin 2⟩] = .fin 10 := by
      norm_num [cartTotal, JSNum.add, JSNum.mul, round64_ten]
    simp only [updateCartUI, ht]
    norm_num [formatPrice, Number, toFixed, nearestScaled]
    decide
  · norm_num [updateCartUI, cartCount, JSNum.add, round64_two]

/-! ## Persistence -/

theorem toJS_stringified_item (i : LineItem) :
    (match (LineItem.toJS i).toJson with
      | some j => j
      | none => Json.null).toJS = i.reloaded := by
  have h1 : keyIndex "name" = none := by decide
  have h2 : keyIndex "price" = none := by decide
  have h3 : keyIndex "qty" = none := by decide
  obtain ⟨name, price, qty⟩ := i
  cases price <;> cases qty <;>
    simp [LineItem.toJS, LineItem.reloaded, reloadedNum, JSVal.toJson, JSVal.toJsonProps,
      Json.toJS, Json.toJSMembers, defineProp, insertProp, h1, h2, h3]

theorem toJSElems_toJsonElems (cart : Cart) :
    Json.toJSElems (JSVal.toJsonElems (Cart.toJS cart)) = cart.map LineItem.reloaded := by
  induction cart with
  | nil => simp [Cart.toJS, JSVal.toJsonElems, Json.toJSElems]
  | cons i rest ih =>
    simp only [Cart.toJS, List.map_cons, JSVal.toJsonElems, Json.toJSElems] at ih ⊢
    rw [ih, toJS_stringified_item]

theorem loadCart_saveCart (cart : Cart) (old : JSCart) :
    loadCart (saveCart (Cart.toJS cart)) old = cart.map LineItem.reloaded := by
  simp only [saveCart, JSON.stringify, JSVal.toJson, loadCart, JSON.parse, Json.toJS,
    toJSElems_toJsonElems]

theorem reloaded_of_finite (i : LineItem)
    (h : i.price.isFinite = true ∧ i.qty.isFinite = true) : i.reloaded = i.toJS := by
  obtain ⟨name, price, qty⟩ := i
  cases price <;> cases qty <;> simp_all [LineItem.reloaded, LineItem.toJS, reloadedNum,
    JSNum.isFinite]

theorem field_toJS (i : LineItem) :
    (i.toJS).field "name" = .str i.name ∧ (i.toJS).field "price" = .num i.price ∧
      (i.toJS).field "qty" = .num i.qty := by
  refine ⟨?_, ?_, ?_⟩ <;> simp [LineItem.toJS, JSVal.field, List.find?]

theorem loadCart_unchanged (store : Storage) (cart : JSCart)
    (h : store = none ∨ JSON.parse store = .error () ∨
      ∃ v, JSON.parse store = .ok v ∧ ∀ elems, v ≠ .arr elems) :
    loadCart store cart = cart := by
  rcases h with rfl | h | ⟨v, hv, hne⟩
  · rfl
  · simp only [loadCart, h]
  · cases v with
    | arr elems => exact absurd rfl (hne elems)
    | _ => simp only [loadCart, hv]

/-- C6, amended. For every cart whose items all have a finite `price` and a
finite `qty`, what `loadCart` reads back from the entry `saveCart` wrote is
the same array: same length, same order, and element by element the same
`name`, `price` and `qty`. -/
theorem saveCart_loadCart_finite (cart : Cart)
    (h : ∀ item ∈ cart, item.price.isFinite = true ∧ item.qty.isFinite = true) :
    loadCart (saveCart (Cart.toJS cart)) [] = Cart.toJS cart ∧
    (loadCart (saveCart (Cart.toJS cart)) []).length = cart.length ∧
    (∀ (k : Nat) (item : LineItem), cart[k]? = some item →
      ∃ v, (loadCart (saveCart (Cart.toJS cart)) [])[k]? = some v ∧
        v.field "name" = .str item.name ∧ v.field "price" = .num item.price ∧
        v.field "qty" = .num item.qty) := by
  have hload : loadCart (saveCart (Cart.toJS cart)) [] = Cart.toJS cart := by
    rw [loadCart_saveCart, Cart.toJS]
    exact List.map_congr_left (fun i hi => reloaded_of_finite i (h i hi))
  refine ⟨hload, ?_, ?_⟩
  · rw [hload]
    simp [Cart.toJS]
  · intro k item hk
    refine ⟨item.toJS, ?_, field_toJS item⟩
    rw [hload]
    simp [Cart.toJS, hk]

/-- C6, amended, at the cart `[{name: "Margherita", price: 8.5, qty: 2}]`. -/
theorem saveCart_loadCart_finite_witness :
    loadCart (saveCart (Cart.toJS [⟨"Margherita", .fin 8.5, .fin 2⟩])) []
      = Cart.toJS [⟨"Margherita", .fin 8.5, .fin 2⟩] :=
  (saveCart_loadCart_finite [⟨"Margherita", .fin 8.5, .fin 2⟩] (by
    intro item hi
    have : item = ⟨"Margherita", .fin 8.5, .fin 2⟩ := by simpa using hi
    subst this
    exact ⟨rfl, rfl⟩)).1

/-- C6, as stated, fails: a cart holding an item whose `price` is `NaN` (or
an infinity) is written with `price` `null`, and `null` is what comes back;
the same happens to a `qty` that is not finite. -/
theorem saveCart_loadCart_nan_price :
    loadCart (saveCart (Cart.toJS [⟨"A", .nan, .fin 1⟩])) []
      = [.obj [("name", .str "A"), ("price", .null), ("qty", .num (.fin 1))]] ∧
    loadCart (saveCart (Cart.toJS [⟨"A", .nan, .fin 1⟩])) []
      ≠ Cart.toJS [⟨"A", .nan, .fin 1⟩] ∧
    loadCart (saveCart (Cart.toJS [⟨"A", .posInf, .fin 1⟩])) []
      = [.obj [("name", .str "A"), ("price", .null), ("qty", .num (.fin 1))]] ∧
    loadCart (saveCart (Cart.toJS [⟨"A", .posInf, .fin 1⟩])) []
      ≠ Cart.toJS [⟨"A", .posInf, .fin 1⟩] ∧
    loadCart (saveCart (Cart.toJS [⟨"A", .fin 1, .nan⟩])) []
      ≠ Cart.toJS [⟨"A", .fin 1, .nan⟩] := by
  refine ⟨?_, ?_, ?_, ?_, ?_⟩ <;> rw [loadCart_saveCart] <;>
    simp [LineItem.reloaded, reloadedNum, Cart.toJS, LineItem.toJS]

/-- C7. When the stored value is absent, is not JSON, or parses to something
that is not an array, `loadCart` returns normally and leaves the cart as it
was: empty at startup. -/
theorem loadCart_discards (store : Storage)
    (h : store = none ∨ JSON.parse store = .error () ∨
      ∃ v, JSON.parse store = .ok v ∧ ∀ elems, v ≠ .arr elems) :
    loadCart store [] = [] ∧ ∀ cart : JSCart, loadCart store cart = cart :=
  ⟨loadCart_unchanged store [] h, fun cart => loadCart_unchanged store cart h⟩

/-- C7, at an absent entry, at a text that is not JSON, and at the texts
`{"a":1}` and `null`. -/
theorem loadCart_discards_witness :
    loadCart none [] = [] ∧
    loadCart (some .notJson) [] = [] ∧
    loadCart (some (.json (.obj [("a", .num 1)]))) [] = [] ∧
    loadCart (some (.json .null)) [] = [] :=
  ⟨(loadCart_discards none (Or.inl rfl)).1,
    (loadCart_discards (some .notJson) (Or.inr (Or.inl rfl))).1,
    (loadCart_discards (some (.json (.obj [("a", .num 1)])))
      (Or.inr (Or.inr ⟨(Json.obj [("a", .num 1)]).toJS, rfl, by
        intro elems
        simp [Json.toJS]⟩))).1,
    (loadCart_discards (some (.json .null))
      (Or.inr (Or.inr ⟨.null, rfl, by
        intro elems
        simp⟩))).1⟩

theorem qtyAtLeastOne_reloaded (i : LineItem) (q : ℚ) (hq : i.qty = .fin q) (h1 : 1 ≤ q) :
    qtyAtLeastOne i.reloaded = true := by
  simp [qtyAtLeastOne, LineItem.reloaded, JSVal.field, List.find?, reloadedNum, hq, JSNum.le, h1]

theorem field_name_reloaded (i : LineItem) : i.reloaded.field "name" = .str i.name := by
  simp [LineItem.reloaded, JSVal.field, List.find?]

theorem wellFormedJS_nil : WellFormedJS [] := by
  simp [WellFormedJS]

/-- C8, amended. The function `loadCart` installs the stored array as it is,
without checking it.  Every item has `qty >= 1` and no two items have the
same name after `loadCart` at startup when the entry was written by
`saveCart` from a cart whose items have a finite `qty >= 1` and pairwise
distinct names (so from any cart reached from the empty one by the four
mutators), and when the entry is absent, is not JSON or is not an array
(the cart is then empty). -/
theorem loadCart_wellFormed_of_saved :
    (∀ (elems : List Json) (cart : JSCart),
      loadCart (some (.json (.arr elems))) cart = Json.toJSElems elems) ∧
    (∀ cart : Cart,
      (∀ item ∈ cart, ∃ q : ℚ, item.qty = .fin q ∧ 1 ≤ q) →
      (cart.map (fun i => i.name)).Nodup →
      WellFormedJS (loadCart (saveCart (Cart.toJS cart)) [])) ∧
    (∀ calls : List Call,
      WellFormedJS (loadCart (saveCart (Cart.toJS (runCalls [] calls))) [])) ∧
    (∀ store : Storage,
      (store = none ∨ JSON.parse store = .error () ∨
        ∃ v, JSON.parse store = .ok v ∧ ∀ elems, v ≠ .arr elems) →
      WellFormedJS (loadCart store [])) := by
  have hsaved : ∀ cart : Cart,
      (∀ item ∈ cart, ∃ q : ℚ, item.qty = .fin q ∧ 1 ≤ q) →
      (cart.map (fun i => i.name)).Nodup →
      WellFormedJS (loadCart (saveCart (Cart.toJS cart)) []) := by
    intro cart hq hn
    rw [loadCart_saveCart]
    refine ⟨?_, ?_⟩
    · intro v hv
      obtain ⟨i, hi, rfl⟩ := List.mem_map.1 hv
      obtain ⟨q, hqq, h1⟩ := hq i hi
      exact qtyAtLeastOne_reloaded i q hqq h1
    · rw [List.map_map]
      have hfun : (JSVal.field "name" ∘ LineItem.reloaded)
          = (fun s => JSVal.str s) ∘ (fun i : LineItem => i.name) := by
        funext i
        exact field_name_reloaded i
      rw [hfun, ← List.map_map]
      have hinj : Function.Injective (fun s : String => JSVal.str s) := by
        intro a b hab
        simpa using hab
      exact (List.Nodup.map hinj hn)
  refine ⟨?_, hsaved, ?_, ?_⟩
  · intro elems cart
    simp only [loadCart, JSON.parse, Json.toJS]
  · intro calls
    have hp := positiveQty_runCalls calls positiveQty_nil
    refine hsaved _ (fun item hi => ?_) hp.2
    obtain ⟨n, hn, -, hq⟩ := hp.1 item hi
    exact ⟨n, hq, by exact_mod_cast hn⟩
  · intro store h
    rw [loadCart_unchanged store [] h]
    exact wellFormedJS_nil

/-- C8, amended, at the entry written from the cart
`[A x 2, B x 1]` and at an absent entry. -/
theorem loadCart_wellFormed_of_saved_witness :
    WellFormedJS (loadCart (saveCart (Cart.toJS
      [⟨"A", .fin 5, .fin 2⟩, ⟨"B", .fin 3, .fin 1⟩])) []) ∧
    WellFormedJS (loadCart none []) :=
  ⟨loadCart_wellFormed_of_saved.2.1 [⟨"A", .fin 5, .fin 2⟩, ⟨"B", .fin 3, .fin 1⟩]
      (by
        intro item hi
        simp only [List.mem_cons, List.mem_singleton, List.not_mem_nil, or_false] at hi
        rcases hi with rfl | rfl
        · exact ⟨2, rfl, by norm_num⟩
        · exact ⟨1, rfl, le_refl 1⟩)
      (by decide),
    loadCart_wellFormed_of_saved.2.2.2 none (Or.inl rfl)⟩

/-- C8, as stated, fails: the stored text
`[{"name":"A","price":1,"qty":0},{"name":"A","price":1,"qty":1}]` is
installed as it is, with an item of `qty` 0 and two items named "A". -/
theorem loadCart_restores_ill_formed :
    loadCart (some (.json (.arr [
        .obj [("name", .str "A"), ("price", .num 1), ("qty", .num 0)],
        .obj [("name", .str "A"), ("price", .num 1), ("qty", .num 1)]]))) []
      = [.obj [("name", .str "A"), ("price", .num (.fin 1)), ("qty", .num (.fin 0))],
         .obj [("name", .str "A"), ("price", .num (.fin 1)), ("qty", .num (.fin 1))]] ∧
    qtyAtLeastOne (.obj [("name", .str "A"), ("price", .num (.fin 1)), ("qty", .num (.fin 0))])
      = false ∧
    JSVal.field "name" (.obj [("name", .str "A"), ("price", .num (.fin 1)), ("qty", .num (.fin 0))])
      = JSVal.field "name"
          (.obj [("name", .str "A"), ("price", .num (.fin 1)), ("qty", .num (.fin 1))]) ∧
    ¬ WellFormedJS (loadCart (some (.json (.arr [
        .obj [("name", .str "A"), ("price", .num 1), ("qty", .num 0)],
        .obj [("name", .str "A"), ("price", .num 1), ("qty", .num 1)]]))) []) := by
  have h1 : keyIndex "name" = none := by decide
  have h2 : keyIndex "price" = none := by decide
  have h3 : keyIndex "qty" = none := by decide
  have hload : loadCart (some (.json (.arr [
        .obj [("name", .str "A"), ("price", .num 1), ("qty", .num 0)],
        .obj [("name", .str "A"), ("price", .num 1), ("qty", .num 1)]]))) []
      = [.obj [("name", .str "A"), ("price", .num (.fin 1)), ("qty", .num (.fin 0))],
         .obj [("name", .str "A"), ("price", .num (.fin 1)), ("qty", .num (.fin 1))]] := by
    simp [loadCart, JSON.parse, Json.toJS, Json.toJSElems, Json.toJSMembers, defineProp,
      insertProp, h1, h2, h3]
  have hq : qtyAtLeastOne
      (.obj [("name", .str "A"), ("price", .num (.fin 1)), ("qty", .num (.fin 0))]) = false := by
    simp [qtyAtLeastOne, JSVal.field, List.find?, JSNum.le]
  refine ⟨hload, hq, ?_, ?_⟩
  · simp [JSVal.field, List.find?]
  · rw [hload]
    intro hwf
    have := hwf.1 _ (List.mem_cons_self _ _)
    rw [hq] at this
    exact Bool.false_ne_true this

end PizzaMenu
